import Mathlib

/-!
Verification of `src/Vjudge_contest_Ranker.py` (VJudge team maker).

The Python program reads per-contest leaderboard rows, scores each rank via
`math.ceil(1600 / (rank + 7))`, aggregates per-file scores per user, sorts by
the aggregated total, and chunks the sorted rows into teams.

The shallow embedding below translates each relevant Python function into a
Lean definition over executable data:

* spreadsheet cell values (`Cell`) and the Python builtins `int(...)` /
  `str(...).strip()` that the script applies to them (`pyInt`, `pyStr`);
* `points_for_rank` (line 68-70), returning `none` exactly when the Python
  division `1600 / (rank + 7)` raises `ZeroDivisionError`;
* the row loop of `read_excel_file` (line 77-85);
* the per-file dictionary accumulation of `main` (line 182-185), with Python
  `dict` assignment modelled by an insertion-order-preserving association
  list update (`dictInsert`);
* the participant table, `FinalPoints` aggregation, and the
  descending single-key `sort_values` call of
  `write_participants_and_teams_to_excel` (line 94-113); the iteration order
  of the Python `set` of usernames is a parameter of the embedding, and the
  pandas sort is modelled as a comparison sort on the single key
  `FinalPoints` (descending) — no other key is consulted, exactly as in the
  source;
* the chunking `[df.iloc[i:i + team_size] for i in range(0, len(df), team_size)]`
  (line 122-123) via an explicit model of Python `range` with a positive step;
* the team-size prompt fallback of `main` (line 165-168).
-/

/-- A spreadsheet cell as surfaced by pandas: an integer, a (finite) floating
point number modelled as a rational, or a string. -/
inductive Cell where
  | intCell (n : Int)
  | floatCell (q : Rat)
  | strCell (s : String)
deriving DecidableEq

/-- Python `str.strip()`: drop whitespace from both ends. (Python strips the
full Unicode whitespace set; the embedding uses `Char.isWhitespace`, which
covers the ASCII whitespace all claims exercise.) -/
def pyStrip (s : String) : String :=
  String.mk (((s.data.dropWhile Char.isWhitespace).reverse.dropWhile
    Char.isWhitespace).reverse)

/-- Parse a string of decimal digits; `none` when empty or a non-digit occurs.
Models the digit part of Python `int(str)`. -/
def parseDigits (cs : List Char) : Option Nat :=
  if cs = [] then none
  else if cs.all (fun c => c.isDigit) then
    some (cs.foldl (fun a c => a * 10 + (c.toNat - 48)) 0)
  else none

/-- Python `int(s)` on a string: surrounding whitespace is ignored, an
optional sign precedes a non-empty digit run; anything else raises
`ValueError`, modelled as `none`. (Digit-group underscores and non-ASCII
digits, which CPython also accepts, are not modelled; no claim depends on
them.) -/
def pyIntOfString (s : String) : Option Int :=
  match (pyStrip s).data with
  | [] => none
  | '+' :: rest => (parseDigits rest).map (fun n => (n : Int))
  | '-' :: rest => (parseDigits rest).map (fun n => -(n : Int))
  | l => (parseDigits l).map (fun n => (n : Int))

/-- Truncation toward zero, the behaviour of Python `int(float)`. -/
def ratTrunc (q : Rat) : Int :=
  if 0 ≤ q then q.floor else q.ceil

/-- Python `int(cell)`: integers pass through, floats truncate toward zero,
strings are parsed; `none` models `ValueError`. -/
def pyInt : Cell → Option Int
  | Cell.intCell n => some n
  | Cell.floatCell q => some (ratTrunc q)
  | Cell.strCell s => pyIntOfString s

/-- Python `str(cell)` as used on the `Team` column. String cells pass
through unchanged (the only case any claim exercises); numeric cells render
via `toString`. -/
def pyStr : Cell → String
  | Cell.intCell n => toString n
  | Cell.floatCell q => toString q
  | Cell.strCell s => s

/-- `points_for_rank` (line 68-70): `math.ceil(1600 / (rank + 7))`.
`none` models the `ZeroDivisionError` raised when `rank + 7 = 0`; otherwise
the mathematical ceiling of `1600 / (rank + 7)` is computed as the negated
floor division of `-1600`, which agrees with `ceil` for every nonzero
denominator. -/
def points_for_rank (rank : Int) : Option Int :=
  if rank + 7 = 0 then none
  else some (-(Int.fdiv (-1600) (rank + 7)))

/-- The row loop of `read_excel_file` (line 77-85): each row's `Team` cell is
stringified and stripped, the `Rank` cell is passed to `int(...)`; on
`ValueError` the row is skipped, otherwise `(username, rank)` is appended. -/
def read_excel_file : List (Cell × Cell) → List (String × Int)
  | [] => []
  | (t, r) :: rest =>
    match pyInt r with
    | some n => (pyStrip (pyStr t), n) :: read_excel_file rest
    | none => read_excel_file rest

/-- Python `dict` assignment `d[k] = v` on an insertion-ordered association
list: an existing binding for `k` is updated in place, a new key is appended. -/
def dictInsert : List (String × Int) → String → Int → List (String × Int)
  | [], k, v => [(k, v)]
  | p :: d, k, v => if p.1 == k then (k, v) :: d else p :: dictInsert d k v

/-- Python `d.get(u, 0)` on the same association lists (line 102). -/
def dictGet (d : List (String × Int)) (u : String) : Int :=
  match d.find? (fun p => p.1 == u) with
  | some p => p.2
  | none => 0

/-- The per-file scoring loop of `main` (line 182-185):
`for u, r in standings: all_scores[file][u] = points_for_rank(r)`, starting
from accumulator `d`. `none` models the unhandled `ZeroDivisionError`
escaping the loop (there is no `try` around it in `main`). -/
def scoreFile : List (String × Int) → List (String × Int) → Option (List (String × Int))
  | d, [] => some d
  | d, (u, r) :: rest =>
    match points_for_rank r with
    | some p => scoreFile (dictInsert d u p) rest
    | none => none

/-- One file's score dictionary as built by `main` from its standings list. -/
def fileScores (standings : List (String × Int)) : Option (List (String × Int)) :=
  scoreFile [] standings

/-- `all_scores` is the outer dictionary of `main`: file name to that file's
user-score dictionary. -/
abbrev AllScores := List (String × List (String × Int))

/-- A participant's `FinalPoints` (line 102 and 110): the sum over all files
of `all_scores[file].get(username, 0)`. -/
def finalPoints (all_scores : AllScores) (u : String) : Int :=
  (all_scores.map (fun fs => dictGet fs.2 u)).sum

/-- The distinct usernames collected by `usernames.update(scores.keys())`
(line 95-97); membership in this list is membership in the Python set. -/
def collectUsernames (all_scores : AllScores) : List String :=
  ((all_scores.map (fun fs => fs.2.map Prod.fst)).flatten).dedup

/-- The participants table (line 99-110) reduced to the columns the claims
concern: one `(Username, FinalPoints)` row per username, in the enumeration
order of the username set. That enumeration order is unspecified in Python
(string hashing is randomized per run), so it is a parameter here. -/
def participantsTable (all_scores : AllScores) (usernameOrder : List String) :
    List (String × Int) :=
  usernameOrder.map (fun u => (u, finalPoints all_scores u))

/-- The `sort_values` call of line 113, whose keyword arguments select the
single key `FinalPoints` and descending order: a comparison sort whose only
sort key is the `FinalPoints` column,
descending. The embedding uses a merge sort; like the pandas sort, it
consults no secondary key, so rows with equal totals keep an order inherited
from the pre-sort row order rather than any username order. -/
def sortParticipants (rows : List (String × Int)) : List (String × Int) :=
  rows.mergeSort (fun a b => decide (b.2 ≤ a.2))

/-- The sorted participant rows produced for a given set-enumeration order. -/
def sortedTable (all_scores : AllScores) (usernameOrder : List String) :
    List (String × Int) :=
  sortParticipants (participantsTable all_scores usernameOrder)

/-- Length of Python `range(0, stop, step)` for a positive `step`. -/
def pyRangeLen (stop step : Nat) : Nat := (stop + step - 1) / step

/-- Python `range(0, stop, step)` for a positive `step`:
`[0, step, 2*step, ...)` below `stop`. (The script only reaches the chunking
with the `team_size` it read; a zero step raises in Python and a negative
step yields an empty range — neither is modelled, no claim needs them.) -/
def pyRange (stop step : Nat) : List Nat :=
  (List.range (pyRangeLen stop step)).map (fun i => i * step)

/-- The chunking of line 122-123:
`[df.iloc[i:i + team_size] for i in range(0, len(df), team_size)]`, with the
slice `df.iloc[i:i+k]` embedded as `(l.drop i).take k`. -/
def formTeams {α : Type} (l : List α) (k : Nat) : List (List α) :=
  (pyRange l.length k).map (fun i => (l.drop i).take k)

/-- The team-size prompt of `main` (line 165-168):
`int(input(...).strip() or "3")` with `ValueError` caught and replaced by 3.
The interactive input line is the argument. -/
def parseTeamSize (inp : String) : Int :=
  let s := pyStrip inp
  let s2 := if s = "" then "3" else s
  match pyIntOfString s2 with
  | some n => n
  | none => 3

/-- The rational 3/2, built without normalization so the kernel can
evaluate it; stands in for the Excel float cell 1.5. -/
def ratThreeHalves : Rat := ⟨3, 2, by decide, by decide⟩

/-! ## Bridge lemmas for the scoring formula -/

/-- For a positive denominator, `points_for_rank` computes exactly the
mathematical ceiling of `1600 / (rank + 7)` over the rationals. -/
lemma points_for_rank_eq_ceil (r : Int) (h : 0 < r + 7) :
    points_for_rank r = some ⌈(1600 : ℚ) / ((r : ℚ) + 7)⌉ := by
  unfold points_for_rank
  rw [if_neg (by omega)]
  congr 1
  rw [Int.fdiv_eq_ediv _ (by omega : (0 : Int) ≤ r + 7)]
  have hceil : ⌈(1600 : ℚ) / ((r : ℚ) + 7)⌉ = -⌊-((1600 : ℚ) / ((r : ℚ) + 7))⌋ := by
    rw [Int.floor_neg, neg_neg]
  rw [hceil, ← neg_div]
  have hd : ((r + 7).toNat : ℚ) = (r : ℚ) + 7 := by
    rw [← Int.cast_natCast, Int.toNat_of_nonneg (by omega)]
    push_cast
    ring
  have hnum : (-(1600 : ℚ)) = ((-1600 : Int) : ℚ) := by push_cast; ring
  rw [← hd, hnum, Rat.floor_intCast_div_natCast]
  rw [Int.toNat_of_nonneg (by omega)]

/-- Antitonicity of the ceiling score in the rank. -/
lemma ceil_points_mono {a b : Int} (ha : 1 ≤ a) (hab : a ≤ b) :
    ⌈(1600 : ℚ) / ((b : ℚ) + 7)⌉ ≤ ⌈(1600 : ℚ) / ((a : ℚ) + 7)⌉ := by
  apply Int.ceil_le_ceil
  have hpos : (0 : ℚ) < (a : ℚ) + 7 := by
    have : (1 : ℚ) ≤ (a : ℚ) := by exact_mod_cast ha
    linarith
  have hle : (a : ℚ) + 7 ≤ (b : ℚ) + 7 := by
    have : (a : ℚ) ≤ (b : ℚ) := by exact_mod_cast hab
    linarith
  gcongr

/-- The ceiling score is at least 1 for every rank at least 1. -/
lemma ceil_points_pos {a : Int} (ha : 1 ≤ a) :
    1 ≤ ⌈(1600 : ℚ) / ((a : ℚ) + 7)⌉ := by
  have hpos : (0 : ℚ) < (a : ℚ) + 7 := by
    have : (1 : ℚ) ≤ (a : ℚ) := by exact_mod_cast ha
    linarith
  have : (0 : ℚ) < (1600 : ℚ) / ((a : ℚ) + 7) := by positivity
  exact Int.ceil_pos.mpr this

/-- Rank 1 yields the ceiling score 200, and no rank at least 1 beats it. -/
lemma ceil_points_le_200 {a : Int} (ha : 1 ≤ a) :
    ⌈(1600 : ℚ) / ((a : ℚ) + 7)⌉ ≤ 200 := by
  have h1 : ⌈(1600 : ℚ) / ((a : ℚ) + 7)⌉ ≤ ⌈(1600 : ℚ) / (((1 : Int) : ℚ) + 7)⌉ :=
    ceil_points_mono le_rfl ha
  have h2 : (1600 : ℚ) / (((1 : Int) : ℚ) + 7) = ((200 : Int) : ℚ) := by
    push_cast
    norm_num
  rw [h2, Int.ceil_intCast] at h1
  exact h1

/-! ## Claim theorems: scoring formula -/

/-- C3: the points function computes the ceiling of `N / (rank + K)` with the
configured constants `N = 1600` and `K = 7`; in particular `points(1) = 200`,
`points(10) = 95`, and `points(100) = 15`. -/
theorem C3_points_formula :
    (∀ r : Int, 1 ≤ r → points_for_rank r = some ⌈(1600 : ℚ) / ((r : ℚ) + 7)⌉) ∧
    points_for_rank 1 = some 200 ∧
    points_for_rank 10 = some 95 ∧
    points_for_rank 100 = some 15 :=
  ⟨fun r hr => points_for_rank_eq_ceil r (by omega), by decide, by decide, by decide⟩

/-- Witness for C3 at rank 1: the hypothesis `1 ≤ 1` is discharged and the
formula instance evaluates. -/
theorem C3_points_formula_witness :
    points_for_rank 1 = some ⌈(1600 : ℚ) / (((1 : Int) : ℚ) + 7)⌉ :=
  C3_points_formula.1 1 (by decide)

/-- C5: for every rank at least 1, the score exists, the score of the next
rank exists, the score is non-increasing from one rank to the next, and both
scores are at least 1. -/
theorem C5_points_nonincreasing_ge_one (r : Int) (h : 1 ≤ r) :
    ∃ v w, points_for_rank r = some v ∧ points_for_rank (r + 1) = some w ∧
      w ≤ v ∧ 1 ≤ v ∧ 1 ≤ w := by
  refine ⟨⌈(1600 : ℚ) / ((r : ℚ) + 7)⌉, ⌈(1600 : ℚ) / (((r + 1 : Int) : ℚ) + 7)⌉,
    points_for_rank_eq_ceil r (by omega), points_for_rank_eq_ceil (r + 1) (by omega),
    ceil_points_mono h (by omega), ceil_points_pos h, ceil_points_pos (by omega)⟩

/-- Witness for C5 at rank 1. -/
theorem C5_points_nonincreasing_ge_one_witness :
    ∃ v w, points_for_rank 1 = some v ∧ points_for_rank (1 + 1) = some w ∧
      w ≤ v ∧ 1 ≤ v ∧ 1 ≤ w :=
  C5_points_nonincreasing_ge_one 1 (by decide)

/-- C6 counterexample: the score is not strictly decreasing — ranks 100 and
101 both score 15, so there are ranks `r₁ < r₂` with equal, not strictly
smaller, scores. -/
theorem C6_counterexample_not_strict :
    (100 : Int) < 101 ∧ points_for_rank 100 = some 15 ∧
    points_for_rank 101 = some 15 ∧ ¬ ((15 : Int) < 15) := by decide

/-- C6 amended: the scoring formula yields a non-increasing (not strictly
decreasing), always-positive integer score for every rank at least 1: for
ranks `r₁ ≤ r₂` the score of `r₂` is at most the score of `r₁`, every score
lies between 1 and 200, and rank 1 yields the maximum value 200. -/
theorem C6_points_antitone_max_at_rank_one (r₁ r₂ : Int) (h1 : 1 ≤ r₁) (h12 : r₁ ≤ r₂) :
    ∃ v₁ v₂, points_for_rank r₁ = some v₁ ∧ points_for_rank r₂ = some v₂ ∧
      v₂ ≤ v₁ ∧ 1 ≤ v₂ ∧ v₁ ≤ 200 ∧ points_for_rank 1 = some 200 := by
  refine ⟨⌈(1600 : ℚ) / ((r₁ : ℚ) + 7)⌉, ⌈(1600 : ℚ) / ((r₂ : ℚ) + 7)⌉,
    points_for_rank_eq_ceil r₁ (by omega), points_for_rank_eq_ceil r₂ (by omega),
    ceil_points_mono h1 h12, ceil_points_pos (by omega), ceil_points_le_200 h1,
    by decide⟩

/-- Witness for the amended C6 at ranks 1 and 5. -/
theorem C6_points_antitone_max_at_rank_one_witness :
    ∃ v₁ v₂, points_for_rank 1 = some v₁ ∧ points_for_rank 5 = some v₂ ∧
      v₂ ≤ v₁ ∧ 1 ≤ v₂ ∧ v₁ ≤ 200 ∧ points_for_rank 1 = some 200 :=
  C6_points_antitone_max_at_rank_one 1 5 (by decide) (by decide)

/-- C10: a row whose rank cell holds the integer -7 is accepted by
`read_excel_file` (the rank converts to an integer, no bound is checked), and
on that accepted row `points_for_rank` divides by zero — modelled by `none` —
so the per-file scoring loop of `main`, which has no handler around it,
aborts instead of skipping or recovering. -/
theorem C10_rank_minus_seven_aborts :
    read_excel_file [(Cell.strCell "u", Cell.intCell (-7))] = [("u", -7)] ∧
    points_for_rank (-7) = none ∧
    fileScores [("u", -7)] = none := by decide

/-! ## Claim theorems: aggregation -/

/-- A dictionary with no binding for `u` yields the default 0. -/
lemma dictGet_eq_zero_of_no_key (d : List (String × Int)) (u : String)
    (h : ∀ p ∈ d, ¬ (p.1 == u) = true) : dictGet d u = 0 := by
  unfold dictGet
  rw [List.find?_eq_none.mpr h]

/-- C4: each participant's aggregated total equals the sum of the per-file
scores over the files where the participant appears (absent files contribute
0); the spec's example totals 250; and the username set over which the table
is built contains exactly the participant ids observed across all files. -/
theorem C4_aggregation :
    (∀ (all_scores : AllScores) (u : String),
      finalPoints all_scores u =
        ((all_scores.filter (fun fs => fs.2.any (fun p => p.1 == u))).map
          (fun fs => dictGet fs.2 u)).sum) ∧
    finalPoints [("A", [("alice", 200)]), ("B", [("bob", 95)]),
      ("C", [("alice", 50)])] "alice" = 250 ∧
    (∀ (all_scores : AllScores) (u : String),
      u ∈ collectUsernames all_scores ↔ ∃ fs ∈ all_scores, ∃ p ∈ fs.2, p.1 = u) := by
  refine ⟨fun all_scores u => ?_, by decide, fun all_scores u => ?_⟩
  · induction all_scores with
    | nil => simp [finalPoints]
    | cons fs rest ih =>
      by_cases h : fs.2.any (fun p => p.1 == u) = true
      · simp only [finalPoints, List.map_cons, List.sum_cons, List.filter_cons, h,
          if_true] at *
        rw [ih]
      · have hfalse : fs.2.any (fun p => p.1 == u) = false :=
          Bool.eq_false_iff.mpr h
        have h0 : dictGet fs.2 u = 0 := by
          apply dictGet_eq_zero_of_no_key
          intro p hp
          have := List.any_eq_false.mp hfalse p hp
          simpa using this
        simp only [finalPoints, List.map_cons, List.sum_cons, List.filter_cons,
          hfalse, Bool.false_eq_true, if_false, h0, zero_add] at *
        rw [ih]
  · unfold collectUsernames
    rw [List.mem_dedup, List.mem_flatten]
    constructor
    · rintro ⟨l, hl, hul⟩
      rcases List.mem_map.mp hl with ⟨fs, hfs, rfl⟩
      rcases List.mem_map.mp hul with ⟨p, hp, rfl⟩
      exact ⟨fs, hfs, p, hp, rfl⟩
    · rintro ⟨fs, hfs, p, hp, rfl⟩
      exact ⟨fs.2.map Prod.fst, List.mem_map.mpr ⟨fs, hfs, rfl⟩,
        List.mem_map.mpr ⟨p, hp, rfl⟩⟩

/-! ## Claim theorems: row acceptance, duplicates, team-size fallback -/

/-- C7 counterexample: a row whose identifier cell is empty after trimming
and whose rank is 0 (below 1) is nevertheless accepted by the row loop — the
code checks only that `int(...)` succeeds on the rank cell, so the claim's
acceptance condition (non-empty trimmed identifier and rank at least 1) is
false on the code. -/
theorem C7_counterexample_empty_id_rank_zero_accepted :
    read_excel_file [(Cell.strCell " ", Cell.intCell 0)] = [("", 0)] ∧
    pyStrip " " = "" ∧ ¬ ((1 : Int) ≤ 0) := by decide

/-- C7 amended: a row is accepted if and only if its rank cell converts via
Python `int(...)` — the identifier cell is never validated (it is stringified
and trimmed, possibly to the empty string) and no lower bound is imposed on
the rank; fractional float ranks are accepted by truncation toward zero
(1.5 converts to 1). -/
theorem C7_row_acceptance (t r : Cell) (rows : List (Cell × Cell)) :
    (pyInt r = none → read_excel_file ((t, r) :: rows) = read_excel_file rows) ∧
    (∀ n, pyInt r = some n →
      read_excel_file ((t, r) :: rows) =
        (pyStrip (pyStr t), n) :: read_excel_file rows) ∧
    pyInt (Cell.floatCell ratThreeHalves) = some 1 := by
  refine ⟨fun h => ?_, fun n h => ?_, by decide⟩ <;> simp [read_excel_file, h]

/-- Witness for the amended C7: a non-numeric rank is skipped, a numeric rank
with an untrimmed identifier is accepted. -/
theorem C7_row_acceptance_witness :
    read_excel_file [(Cell.strCell "x", Cell.strCell "abc")] = read_excel_file [] ∧
    read_excel_file [(Cell.strCell " y ", Cell.intCell 4)]
      = (pyStrip (pyStr (Cell.strCell " y ")), 4) :: read_excel_file [] :=
  ⟨(C7_row_acceptance (Cell.strCell "x") (Cell.strCell "abc") []).1 (by decide),
   (C7_row_acceptance (Cell.strCell " y ") (Cell.intCell 4) []).2.1 4 (by decide)⟩

/-- Reading at a key whose head entry matches. -/
lemma dictGet_cons_pos (p : String × Int) (d : List (String × Int)) (u : String)
    (h : (p.1 == u) = true) : dictGet (p :: d) u = p.2 := by
  unfold dictGet
  rw [@List.find?_cons_of_pos _ (fun q => q.1 == u) p d h]

/-- Reading at a key skips a non-matching head entry. -/
lemma dictGet_cons_neg (p : String × Int) (d : List (String × Int)) (u : String)
    (h : ¬ (p.1 == u) = true) : dictGet (p :: d) u = dictGet d u := by
  unfold dictGet
  rw [@List.find?_cons_of_neg _ (fun q => q.1 == u) p d h]

/-- Updating a key reads back the new value. -/
lemma dictGet_dictInsert_self (d : List (String × Int)) (k : String) (v : Int) :
    dictGet (dictInsert d k v) k = v := by
  induction d with
  | nil => exact dictGet_cons_pos (k, v) [] k (by simp)
  | cons p d ih =>
    by_cases h : (p.1 == k) = true
    · rw [dictInsert, if_pos h]
      exact dictGet_cons_pos (k, v) d k (by simp)
    · rw [dictInsert, if_neg h, dictGet_cons_neg p _ k h]
      exact ih

/-- Updating one key leaves every other key unchanged. -/
lemma dictGet_dictInsert_other (d : List (String × Int)) (k u : String) (v : Int)
    (hku : k ≠ u) : dictGet (dictInsert d k v) u = dictGet d u := by
  induction d with
  | nil =>
    rw [dictInsert]
    exact dictGet_cons_neg (k, v) [] u (by simpa using hku)
  | cons p d ih =>
    by_cases h : (p.1 == k) = true
    · have hpk : p.1 = k := by simpa using h
      rw [dictInsert, if_pos h, dictGet_cons_neg (k, v) d u (by simpa using hku),
        dictGet_cons_neg p d u (by simp [hpk]; exact hku)]
    · rw [dictInsert, if_neg h]
      by_cases h2 : (p.1 == u) = true
      · rw [dictGet_cons_pos p _ u h2, dictGet_cons_pos p d u h2]
      · rw [dictGet_cons_neg p _ u h2, dictGet_cons_neg p d u h2]
        exact ih

/-- The scoring loop splits over list concatenation. -/
lemma scoreFile_append (d : List (String × Int)) (l1 l2 : List (String × Int)) :
    scoreFile d (l1 ++ l2) = (scoreFile d l1).bind (fun d2 => scoreFile d2 l2) := by
  induction l1 generalizing d with
  | nil => simp [scoreFile]
  | cons q l1 ih =>
    rcases q with ⟨u, r⟩
    simp only [List.cons_append, scoreFile]
    cases points_for_rank r with
    | none => simp
    | some p => simpa using ih (dictInsert d u p)

/-- Rows that never mention `u` do not change the recorded score of `u`. -/
lemma scoreFile_preserves_other (l : List (String × Int)) (d d2 : List (String × Int))
    (u : String) (hl : ∀ q ∈ l, q.1 ≠ u) (h : scoreFile d l = some d2) :
    dictGet d2 u = dictGet d u := by
  induction l generalizing d with
  | nil =>
    simp only [scoreFile, Option.some.injEq] at h
    rw [h]
  | cons q l ih =>
    rcases q with ⟨w, r⟩
    cases hp : points_for_rank r with
    | none =>
      simp only [scoreFile, hp] at h
      exact Option.noConfusion h
    | some p =>
      simp only [scoreFile, hp] at h
      have hw : w ≠ u := hl (w, r) (List.mem_cons_self _ _)
      have hrest : ∀ q ∈ l, q.1 ≠ u := fun q hq => hl q (List.mem_cons_of_mem _ hq)
      rw [ih (dictInsert d w p) hrest h, dictGet_dictInsert_other d w u p hw]

/-- C8 counterexample: with two accepted rows for the same identifier — rank
1 (score 200) then rank 10 (score 95) — the per-file dictionary records 95,
the score of the later row, not the best score 200 claimed by the spec. -/
theorem C8_counterexample_last_not_best :
    fileScores [("a", 1), ("a", 10)] = some [("a", 95)] ∧
    points_for_rank 1 = some 200 ∧
    points_for_rank 10 = some 95 ∧
    dictGet [("a", 95)] "a" = 95 ∧ (95 : Int) ≠ 200 := by decide

/-- C8 amended: when the same identifier appears in more than one accepted
row within a single file, the per-file score recorded for it is the score of
its last occurrence — each later duplicate overwrites the earlier value —
not the best of the duplicates. -/
theorem C8_last_duplicate_wins (pre post : List (String × Int)) (u : String)
    (r p : Int) (d : List (String × Int))
    (hp : points_for_rank r = some p)
    (hrun : fileScores (pre ++ (u, r) :: post) = some d)
    (hlast : ∀ q ∈ post, q.1 ≠ u) :
    dictGet d u = p := by
  unfold fileScores at hrun
  rw [scoreFile_append] at hrun
  cases h1 : scoreFile [] pre with
  | none => rw [h1] at hrun; exact absurd hrun (by simp)
  | some d1 =>
    rw [h1] at hrun
    simp only [Option.some_bind, scoreFile, hp] at hrun
    have := scoreFile_preserves_other post (dictInsert d1 u p) d u hlast hrun
    rw [this, dictGet_dictInsert_self]

/-- Witness for the amended C8: the duplicate pair from the counterexample,
with the rank-10 row last, records score 95. -/
theorem C8_last_duplicate_wins_witness : dictGet [("a", 95)] "a" = 95 :=
  C8_last_duplicate_wins [("a", 1)] [] "a" 10 95 [("a", 95)]
    (by decide) (by decide) (by decide)

/-- C9 counterexample: the numeric non-positive requests 0 and -2 are used
as-is, not replaced by the documented default 3, so the team size actually
used is not always positive. -/
theorem C9_counterexample_nonpositive_kept :
    parseTeamSize "0" = 0 ∧ parseTeamSize "-2" = -2 ∧ ¬ ((0 : Int) > 0) := by decide

/-- C9 amended: an empty or non-numeric team-size request falls back to 3 and
the run continues, but a numeric request is used as-is whatever its sign —
only `ValueError` (non-numeric input) and emptiness trigger the fallback,
so the team size used for chunking is not guaranteed positive. -/
theorem C9_fallback_only_for_non_numeric (s : String) :
    (pyStrip s = "" → parseTeamSize s = 3) ∧
    (pyIntOfString (pyStrip s) = none → parseTeamSize s = 3) ∧
    (∀ n, pyStrip s ≠ "" → pyIntOfString (pyStrip s) = some n → parseTeamSize s = n) := by
  unfold parseTeamSize
  by_cases h : pyStrip s = ""
  · refine ⟨fun _ => ?_, fun _ => ?_, fun n hne _ => absurd h hne⟩ <;>
      simp [h] <;> decide
  · refine ⟨fun he => absurd he h, fun hn => ?_, fun n _ hn => ?_⟩ <;>
      simp [h, hn]

/-- Witness for the amended C9: empty input and non-numeric input fall back
to 3; the numeric input 4 is used as-is. -/
theorem C9_fallback_only_for_non_numeric_witness :
    parseTeamSize "" = 3 ∧ parseTeamSize "abc" = 3 ∧ parseTeamSize " 4 " = 4 :=
  ⟨(C9_fallback_only_for_non_numeric "").1 (by decide),
   (C9_fallback_only_for_non_numeric "abc").2.1 (by decide),
   (C9_fallback_only_for_non_numeric " 4 ").2.2 4 (by decide) (by decide)⟩

/-! ## Claim theorems: chunking -/

/-- An empty range: `range(0, 0, k)` has no elements. -/
lemma pyRangeLen_zero (k : Nat) : pyRangeLen 0 k = 0 := by
  unfold pyRangeLen
  cases k with
  | zero => rfl
  | succ k =>
    have h : 0 + (k + 1) - 1 = k := by omega
    rw [h]
    exact Nat.div_eq_of_lt (by omega)

/-- Peeling one step off the chunk count: for a non-empty list, the number of
chunks is one more than for the list with its first `k` elements removed. -/
lemma pyRangeLen_succ (n k : Nat) (hk : 0 < k) (hn : 0 < n) :
    pyRangeLen n k = pyRangeLen (n - k) k + 1 := by
  unfold pyRangeLen
  rcases le_or_lt n k with h | h
  · have h1 : n + k - 1 = (n - 1) + k := by omega
    have h3 : n - k = 0 := by omega
    rw [h1, Nat.add_div_right _ hk, h3]
    have h2 : (n - 1) / k = 0 := Nat.div_eq_of_lt (by omega)
    have h4 : 0 + k - 1 = k - 1 := by omega
    rw [h2, h4, Nat.div_eq_of_lt (by omega)]
  · have h1 : n + k - 1 = (n - 1) + k := by omega
    have h2 : n - k + k - 1 = (n - k - 1) + k := by omega
    rw [h1, h2, Nat.add_div_right _ hk, Nat.add_div_right _ hk]
    have h3 : n - 1 = (n - k - 1) + k := by omega
    rw [h3, Nat.add_div_right _ hk]

/-- Chunking the empty list yields no teams. -/
lemma formTeams_nil {α : Type} (k : Nat) : formTeams ([] : List α) k = [] := by
  unfold formTeams pyRange
  rw [List.length_nil, pyRangeLen_zero]
  rfl

/-- Unfolding the chunking of a non-empty list: the first chunk is the first
`k` elements, the remaining chunks are the chunking of the rest. -/
lemma formTeams_eq_cons {α : Type} (k : Nat) (hk : 0 < k) (l : List α) (hl : l ≠ []) :
    formTeams l k = l.take k :: formTeams (l.drop k) k := by
  have hn : 0 < l.length := List.length_pos.mpr hl
  unfold formTeams pyRange
  rw [List.length_drop, pyRangeLen_succ l.length k hk hn, List.range_succ_eq_map]
  simp only [List.map_cons, List.map_map]
  congr 1
  · simp
  · apply List.map_congr_left
    intro i hi
    simp only [Function.comp]
    have hmul : Nat.succ i * k = k + i * k := by
      rw [Nat.succ_mul, Nat.add_comm]
    rw [hmul, ← List.drop_drop]

/-- The three structural chunking properties, by strong induction on a
length bound. -/
lemma formTeams_props {α : Type} (k : Nat) (hk : 0 < k) :
    ∀ (n : Nat) (l : List α), l.length ≤ n →
      (formTeams l k).flatten = l ∧
      (∀ c ∈ (formTeams l k).dropLast, c.length = k) ∧
      (∀ c ∈ formTeams l k, 0 < c.length ∧ c.length ≤ k) := by
  intro n
  induction n with
  | zero =>
    intro l hl
    have h0 : l = [] := List.length_eq_zero.mp (Nat.le_zero.mp hl)
    subst h0
    rw [formTeams_nil]
    exact ⟨rfl, by simp, by simp⟩
  | succ n ih =>
    intro l hl
    rcases eq_or_ne l [] with rfl | hne
    · rw [formTeams_nil]
      exact ⟨rfl, by simp, by simp⟩
    · have hlen : 0 < l.length := List.length_pos.mpr hne
      have hdrop : (l.drop k).length ≤ n := by
        rw [List.length_drop]
        omega
      obtain ⟨ih1, ih2, ih3⟩ := ih (l.drop k) hdrop
      rw [formTeams_eq_cons k hk l hne]
      refine ⟨?_, ?_, ?_⟩
      · rw [List.flatten_cons, ih1, List.take_append_drop]
      · cases hfd : formTeams (l.drop k) k with
        | nil => simp
        | cons c cs =>
          intro c2 hc2
          rw [List.dropLast_cons₂] at hc2
          rcases List.mem_cons.mp hc2 with rfl | hmem
          · have hne2 : l.drop k ≠ [] := by
              intro h0
              rw [h0, formTeams_nil] at hfd
              exact List.noConfusion hfd
            have hklen : k < l.length := by
              have hp := List.length_pos.mpr hne2
              rw [List.length_drop] at hp
              omega
            rw [List.length_take]
            omega
          · exact ih2 c2 (by rw [hfd]; exact hmem)
      · intro c2 hc2
        rcases List.mem_cons.mp hc2 with rfl | hmem
        · rw [List.length_take]
          omega
        · exact ih3 c2 hmem

/-- C2: for every list and positive team size, chunking yields consecutive
non-overlapping slices whose concatenation reproduces the list exactly (no
element dropped, duplicated, or reordered); every chunk except possibly the
last has length exactly `team_size`, and every chunk is non-empty and no
longer than `team_size`; with 7 participants and team size 3 the chunk
lengths are `[3, 3, 1]`. -/
theorem C2_chunking_partitions (k : Nat) (hk : 0 < k) {α : Type} (l : List α) :
    (formTeams l k).flatten = l ∧
    (∀ c ∈ (formTeams l k).dropLast, c.length = k) ∧
    (∀ c ∈ formTeams l k, 0 < c.length ∧ c.length ≤ k) ∧
    (formTeams (List.range 7) 3).map List.length = [3, 3, 1] := by
  obtain ⟨h1, h2, h3⟩ := formTeams_props k hk l.length l (le_refl _)
  exact ⟨h1, h2, h3, by decide⟩

/-- Witness for C2 with team size 3 and seven participants. -/
theorem C2_chunking_partitions_witness :
    (formTeams (List.range 7) 3).flatten = List.range 7 ∧
    (∀ c ∈ (formTeams (List.range 7) 3).dropLast, c.length = 3) ∧
    (∀ c ∈ formTeams (List.range 7) 3, 0 < c.length ∧ c.length ≤ 3) ∧
    (formTeams (List.range 7) 3).map List.length = [3, 3, 1] :=
  C2_chunking_partitions 3 (by decide) (List.range 7)

/-! ## Claim theorems: sorting -/

unseal List.merge List.mergeSort in
/-- C1 counterexample: the sort key is `FinalPoints` alone — there is no
secondary key on the participant id. With "bob" and "carol" both totalling
100, the set-enumeration order `[carol, bob]` produces the output row order
`[carol, bob]` (not "bob" first, as the claim requires), and the equally
legitimate enumeration order `[bob, carol]` of the same username set
produces a different output row order, so the tie order is not
participant-id ascending and not reproducible across runs.
The sealed merge-sort auxiliaries are unsealed so the kernel can
evaluate the concrete sort. -/
theorem C1_counterexample_no_tiebreak :
    finalPoints [("A", [("carol", 100), ("bob", 100)])] "bob" = 100 ∧
    finalPoints [("A", [("carol", 100), ("bob", 100)])] "carol" = 100 ∧
    sortedTable [("A", [("carol", 100), ("bob", 100)])] ["carol", "bob"]
      = [("carol", 100), ("bob", 100)] ∧
    sortedTable [("A", [("carol", 100), ("bob", 100)])] ["bob", "carol"]
      = [("bob", 100), ("carol", 100)] ∧
    [("carol", (100 : Int)), ("bob", 100)] ≠ [("bob", (100 : Int)), ("carol", 100)] := by
  decide

/-- C1 amended: the output rows are sorted by total score descending and are
a permutation of the participant table rows; but the only sort key is the
total, so when totals tie the relative order inherits the (unspecified)
enumeration order of the username set rather than following participant-id
ascending. -/
theorem C1_sorted_by_total_descending (all_scores : AllScores) (order : List String) :
    (sortedTable all_scores order).Pairwise (fun a b => b.2 ≤ a.2) ∧
    (sortedTable all_scores order).Perm (participantsTable all_scores order) := by
  constructor
  · have htrans : ∀ (a b c : String × Int),
        (fun x y : String × Int => decide (y.2 ≤ x.2)) a b →
        (fun x y : String × Int => decide (y.2 ≤ x.2)) b c →
        (fun x y : String × Int => decide (y.2 ≤ x.2)) a c := by
      intro a b c hab hbc
      simp only [decide_eq_true_eq] at *
      exact le_trans hbc hab
    have htotal : ∀ (a b : String × Int),
        ((fun x y : String × Int => decide (y.2 ≤ x.2)) a b ||
         (fun x y : String × Int => decide (y.2 ≤ x.2)) b a) = true := by
      intro a b
      simp only [Bool.or_eq_true, decide_eq_true_eq]
      exact le_total b.2 a.2
    have h := List.sorted_mergeSort htrans htotal (participantsTable all_scores order)
    unfold sortedTable sortParticipants
    exact h.imp (fun hab => by simpa using hab)
  · unfold sortedTable sortParticipants
    exact List.mergeSort_perm _ _
